import Mathlib

/-!
Formal model of the IMSS pension-analysis core described in the project
specification, together with the caller-side display logic found in
`src/frontend/app/(dashboard)/results/page.tsx`.

The repository snapshot only contains the frontend; the core engine
(Overlap Resolver, Weeks Accountant, Conservation-of-Rights Engine,
Salary Window Averager, Quality Validator, Pension Processor) is not
present under `src/`, so those components are modelled from the
specification text (each such definition carries a doc comment starting
with `Modelled from the spec:`).  The display helpers (`formatearFecha`
and the observation filter) are translated from the TypeScript source.

Dates are civil dates at day granularity, encoded as proleptic-Gregorian
day numbers (see `rataDie`); monetary values are exact rationals.
-/

namespace Pension

/-! ## Calendar arithmetic (civil dates, day granularity) -/

/-- Gregorian leap-year test. -/
def isLeap (y : Nat) : Bool :=
  (y % 4 == 0 && y % 100 != 0) || y % 400 == 0

/-- Number of days in month `m` (1–12) of year `y`. -/
def daysInMonth (y m : Nat) : Nat :=
  if m = 2 then (if isLeap y then 29 else 28)
  else if m = 4 ∨ m = 6 ∨ m = 9 ∨ m = 11 then 30
  else 31

/-- Days in the months of year `y` strictly before month `m`. -/
def daysBeforeMonth (y m : Nat) : Nat :=
  (List.range (m - 1)).foldl (fun acc i => acc + daysInMonth y (i + 1)) 0

/-- Day number of the civil date `d/m/y` (proleptic Gregorian, rata die):
day 1 is 1 January of year 1. -/
def rataDie (y m d : Nat) : Nat :=
  365 * (y - 1) + (y - 1) / 4 - (y - 1) / 100 + (y - 1) / 400
    + daysBeforeMonth y m + d

/-- A civil date `d/m/y` is well formed. -/
def validDate (y m d : Nat) : Bool :=
  1 ≤ y && 1 ≤ m && m ≤ 12 && 1 ≤ d && d ≤ daysInMonth y m

/-! ## Data model -/

/-- Modelled from the spec: `EmploymentPeriod` — one employer-reported
contribution interval: employer registration id, start day, end day
(inclusive), contributed weeks as reported, and a daily integrated
salary (§3). -/
structure EmploymentPeriod where
  employerId : Nat
  startDay : Nat
  endDay : Nat
  reportedWeeks : Nat
  dailySalary : ℚ
  deriving Repr, DecidableEq

/-- Calendar-day span of a period (end date inclusive). -/
def periodDays (p : EmploymentPeriod) : Nat :=
  p.endDay + 1 - p.startDay

/-- Modelled from the spec: `DiscountLedgerEntry` — (period-id,
employer-id, discounted days/weeks with day-level carry, reason) (§3,
§4.1). -/
structure DiscountLedgerEntry where
  periodId : Nat
  employerId : Nat
  discountedDays : Nat
  discountedWeeks : Nat
  carryDays : Nat
  reason : String
  deriving Repr, DecidableEq

/-! ## Overlap Resolver -/

/-- Inclusive-interval intersection of two periods, in days. -/
def interDays (p q : EmploymentPeriod) : Nat :=
  min p.endDay q.endDay + 1 - max p.startDay q.startDay

/-- Modelled from the spec: back-to-back periods sharing only an
end/start boundary day count as a zero-day overlap (§4.1 edge case).
The shared extent must be exactly the boundary day, with one period
genuinely preceding the other. -/
def sharesOnlyBoundary (p q : EmploymentPeriod) : Bool :=
  interDays p q == 1 &&
    ((p.endDay == q.startDay && p.startDay < q.startDay) ||
     (q.endDay == p.startDay && q.startDay < p.startDay))

/-- Modelled from the spec: the business overlap between two periods, in
whole days; a mere end/start boundary is not an overlap (§4.1). -/
def overlapDays (p q : EmploymentPeriod) : Nat :=
  if sharesOnlyBoundary p q then 0 else interDays p q

/-- Modelled from the spec: tie-break policy — the period with the lower
daily integrated salary absorbs the discount; on equal salaries the
period with the later start date absorbs it (§4.1). -/
def absorber (a b : Nat × EmploymentPeriod) : Nat × EmploymentPeriod :=
  if a.2.dailySalary < b.2.dailySalary then a
  else if b.2.dailySalary < a.2.dailySalary then b
  else if a.2.startDay < b.2.startDay then b
  else a

/-- All unordered pairs of a list, each taken once in list order. -/
def allPairs : List α → List (α × α)
  | [] => []
  | x :: xs => xs.map (fun y => (x, y)) ++ allPairs xs

/-- Ledger entry for one overlapping pair: whole-day overlap converted
to weeks by a fixed 7-day week, floor rounding, remainder kept as a
day-level carry (§4.1). -/
def pairEntry (a b : Nat × EmploymentPeriod) : DiscountLedgerEntry :=
  let t := absorber a b
  let d := overlapDays a.2 b.2
  { periodId := t.1
    employerId := t.2.employerId
    discountedDays := d
    discountedWeeks := d / 7
    carryDays := d % 7
    reason := "empalme entre patrones" }

/-- Modelled from the spec: the Overlap Resolver's discount ledger —
one entry per pair of periods from different employers whose date
ranges overlap by at least one business day (§4.1). -/
def resolverLedger (periods : List EmploymentPeriod) : List DiscountLedgerEntry :=
  (allPairs periods.enum).filterMap fun ab =>
    if ab.1.2.employerId ≠ ab.2.2.employerId ∧ 0 < overlapDays ab.1.2 ab.2.2 then
      some (pairEntry ab.1 ab.2)
    else none

/-! ## Weeks Accountant -/

/-- Round a rational to the nearest integer, ties to even
(round-half-even). -/
def roundHalfEven (x : ℚ) : ℤ :=
  let f := ⌊x⌋
  let frac := x - (f : ℚ)
  if frac < 1/2 then f
  else if 1/2 < frac then f + 1
  else if f % 2 = 0 then f else f + 1

/-- Round a rational to two decimal places, round-half-even. -/
def roundTwoPlaces (x : ℚ) : ℚ :=
  (roundHalfEven (x * 100) : ℚ) / 100

/-- Modelled from the spec: Weeks Accountant output — computed total,
discounted, net weeks and the discount percentage
`discounted / (computed total before discount)` rounded to two decimal
places using round-half-even (§4.2). -/
structure WeeksSummary where
  computedTotalWeeks : Nat
  discountedWeeks : Nat
  netWeeks : Nat
  discountPercentage : ℚ
  deriving Repr, DecidableEq

/-- Modelled from the spec: the Weeks Accountant — aggregates reported
weeks and applies the discount ledger (§4.2). -/
def weeksAccountant (periods : List EmploymentPeriod)
    (ledger : List DiscountLedgerEntry) : WeeksSummary :=
  let total := (periods.map EmploymentPeriod.reportedWeeks).sum
  let disc := (ledger.map DiscountLedgerEntry.discountedWeeks).sum
  { computedTotalWeeks := total
    discountedWeeks := disc
    netWeeks := total - disc
    discountPercentage :=
      if total = 0 then 0 else roundTwoPlaces ((disc : ℚ) / (total : ℚ)) }

/-! ## Conservation-of-Rights Engine -/

/-- Modelled from the spec: the applicable legal regime, an enumerated
tag (§3). -/
inductive Regime where
  | ley73
  | ley97
  deriving Repr, DecidableEq

/-- Modelled from the spec: the regime rule table supplying the
regime-specific conservation divisor (§4.3, §9). -/
def regimeDivisor : Regime → Nat
  | .ley73 => 4
  | .ley97 => 4

/-- Modelled from the spec: conserved time in days, a function of the
time contributed and the regime-specific divisor (§4.3):
`conserved-time = f(years-contributed, divisor)`, here the contributed
days divided by the divisor. -/
def conservedDays (divisor netWeeks : Nat) : Nat :=
  netWeeks * 7 / divisor

/-- Modelled from the spec: expiry date of conserved rights —
last-contribution end date plus the conserved time (§4.3). -/
def expiryDay (regime : Regime) (netWeeks lastContribEnd : Nat) : Nat :=
  lastContribEnd + conservedDays (regimeDivisor regime) netWeeks

/-- Modelled from the spec: validity ("vigente") of conserved rights at
a reference date: `reference date ≤ expiry date`, compared at day
granularity (§4.3). -/
def conservationVigente (regime : Regime) (netWeeks lastContribEnd refDay : Nat) : Bool :=
  refDay ≤ expiryDay regime netWeeks lastContribEnd

/-- Modelled from the spec: `ConservationResult` — the conservation
block of the report (§3, §4.3). -/
structure ConservationResult where
  regime : Regime
  recognizedWeeks : Nat
  conservedDays : Nat
  lastContribEnd : Nat
  expiryDay : Nat
  vigente : Bool
  puedeReactivar : Bool
  deriving Repr, DecidableEq

/-- Modelled from the spec: the Conservation Engine — a pure function of
net weeks, regime, last-contribution end date and reference date; the
reactivation flag is derived on the `no_vigente` branch (§4.3). -/
def conservationEngine (regime : Regime) (netWeeks lastContribEnd refDay : Nat) :
    ConservationResult :=
  let v := conservationVigente regime netWeeks lastContribEnd refDay
  { regime
    recognizedWeeks := netWeeks
    conservedDays := conservedDays (regimeDivisor regime) netWeeks
    lastContribEnd
    expiryDay := expiryDay regime netWeeks lastContribEnd
    vigente := v
    puedeReactivar := !v && 0 < netWeeks }

/-! ## Salary Window Averager -/

/-- Modelled from the spec: one per-segment record of the salary window —
`(employer, start, end, days_used, daily_salary)` (§4.4). -/
structure SalarySegment where
  employerId : Nat
  startDay : Nat
  endDay : Nat
  daysUsed : Nat
  dailySalary : ℚ
  deriving Repr, DecidableEq

/-- Modelled from the spec: the backward walk of the Salary Window
Averager — consume each period's day span until the remaining target is
met, taking only the needed trailing days of the final period (§4.4).
Returns the achieved day-count and the segments in the order consumed. -/
def windowWalk : List EmploymentPeriod → Nat → Nat × List SalarySegment
  | _, 0 => (0, [])
  | [], _ + 1 => (0, [])
  | p :: ps, r + 1 =>
      let d := periodDays p
      if r + 1 ≤ d then
        (r + 1, [⟨p.employerId, p.endDay + 1 - (r + 1), p.endDay, r + 1, p.dailySalary⟩])
      else
        let rest := windowWalk ps (r + 1 - d)
        (d + rest.1, ⟨p.employerId, p.startDay, p.endDay, d, p.dailySalary⟩ :: rest.2)

/-- Insert a period into a list sorted by end date descending, keeping
the newly inserted period in front of ties (stable). -/
def insertByEndDesc (p : EmploymentPeriod) :
    List EmploymentPeriod → List EmploymentPeriod
  | [] => [p]
  | q :: qs =>
      if q.endDay ≤ p.endDay then p :: q :: qs
      else q :: insertByEndDesc p qs

/-- Sort periods by end date descending (most recent first), as the
averager walks the timeline backward from the reference point (§4.4);
a stable structural insertion sort. -/
def sortByEndDesc : List EmploymentPeriod → List EmploymentPeriod
  | [] => []
  | p :: ps => insertByEndDesc p (sortByEndDesc ps)

/-- Modelled from the spec: `SalaryWindowResult` (§3, §4.4). -/
structure SalaryWindowResult where
  targetDays : Nat
  achievedDays : Nat
  dailyAverage : ℚ
  monthlyAverage : ℚ
  windowStart : Option Nat
  windowEnd : Option Nat
  complete : Bool
  segments : List SalarySegment
  deriving Repr, DecidableEq

/-- Modelled from the spec: the fixed average-month-length constant used
for the monthly average (§4.4). -/
def monthFactor : ℚ := 304 / 10

/-- Modelled from the spec: the Salary Window Averager — walks the
resolved periods backward from the most recent end date, accumulating
calendar days up to the target; daily average is the day-weighted salary
mean over the days actually achieved, monthly average is the daily
average times the fixed 30.4 constant; the completeness flag records
whether the target was fully satisfiable (§4.4). -/
def salaryWindow (periods : List EmploymentPeriod) (targetDays : Nat) :
    SalaryWindowResult :=
  let walked := windowWalk (sortByEndDesc periods) targetDays
  let achieved := walked.1
  let segs := walked.2
  let weighted := (segs.map fun s => (s.daysUsed : ℚ) * s.dailySalary).sum
  let daily := if achieved = 0 then 0 else weighted / (achieved : ℚ)
  { targetDays
    achievedDays := achieved
    dailyAverage := daily
    monthlyAverage := daily * monthFactor
    windowStart := (segs.getLast?).map SalarySegment.startDay
    windowEnd := (segs.head?).map SalarySegment.endDay
    complete := targetDays ≤ achieved
    segments := segs }

/-! ## Pension Processor (orchestration) -/

/-- Modelled from the spec: `Worker` identity and regime facts (§3). -/
structure Worker where
  nss : String
  curp : String
  nombre : String
  birthDay : Option Nat
  regime : Regime
  deriving Repr, DecidableEq

/-- Modelled from the spec: the immutable input snapshot of one analysis
run — worker, ordered periods, the officially reported total, the
last-contribution end date, an optional explicit reference date and the
salary-window target (§4.6, §6). -/
structure PensionInput where
  worker : Worker
  periods : List EmploymentPeriod
  officialTotalWeeks : Nat
  lastContribEnd : Option Nat
  refDay : Option Nat
  targetWindowDays : Nat
  deriving Repr, DecidableEq

/-- Modelled from the spec: the ambient execution environment a run
could observe — the current clock ("now") and a randomness seed.  The
spec requires the pipeline to depend on neither beyond the default for a
missing reference date (§4.3, §5, §8). -/
structure Env where
  now : Nat
  seed : Nat
  deriving Repr, DecidableEq

/-- Modelled from the spec: the structural/fatal error taxonomy (§7). -/
inductive PensionError where
  | malformedPeriods
  | missingLastContribution
  deriving Repr, DecidableEq

/-- Modelled from the spec: precision classification of computed versus
officially reported totals: exact / within-tolerance / divergent, with
the default tolerance of 1 week (§4.2). -/
inductive Precision where
  | exact
  | withinTolerance
  | divergent
  deriving Repr, DecidableEq

/-- Modelled from the spec: classify the computed net weeks against the
officially reported total (§4.2). -/
def precisionClass (netWeeks official : Nat) : Precision :=
  if netWeeks = official then .exact
  else if netWeeks ≤ official + 1 ∧ official ≤ netWeeks + 1 then .withinTolerance
  else .divergent

/-- Periods are ordered by start date. -/
def sortedByStart : List EmploymentPeriod → Bool
  | [] => true
  | [_] => true
  | p :: q :: rest => p.startDay ≤ q.startDay && sortedByStart (q :: rest)

/-- Modelled from the spec: input well-formedness enforced defensively —
`end ≥ start` for each period, ordering by start date, and no
same-employer self-overlap (§3, §4.1). -/
def periodsWellFormed (periods : List EmploymentPeriod) : Bool :=
  periods.all (fun p => p.startDay ≤ p.endDay) &&
  sortedByStart periods &&
  (allPairs periods).all fun pq =>
    pq.1.employerId != pq.2.employerId || interDays pq.1 pq.2 == 0

/-- Modelled from the spec: Quality/Cross Validator observations — the
ledger's "empalme" notes plus a reconciliation observation when the
computed net differs from the official total (§4.5). -/
def validatorObservations (ws : WeeksSummary) (official : Nat)
    (ledger : List DiscountLedgerEntry) : List String :=
  (ledger.map fun e => "Semanas descontadas por " ++ e.reason) ++
    (if ws.netWeeks = official then []
     else ["Diferencia entre semanas calculadas y el total oficial"])

/-- Modelled from the spec: `AnalysisReport` — the unit returned to
callers, aggregating worker, weeks summary, discount ledger,
conservation block, salary-window block and observations (§3, §6). -/
structure AnalysisReport where
  worker : Worker
  weeks : WeeksSummary
  officialTotalWeeks : Nat
  precision : Precision
  ledger : List DiscountLedgerEntry
  conservation : ConservationResult
  salary : SalaryWindowResult
  observations : List String
  deriving Repr, DecidableEq

/-- Modelled from the spec: the Pension Processor — fixed pipeline
Overlap Resolver → Weeks Accountant → Conservation Engine → Salary
Window Averager → Quality Validator → report assembly; structural
defects abort the run with an error and no partial report; a missing
last-contribution date is fatal and is never defaulted to "today"
(§4.3, §4.6, §7). -/
def pensionProcessor (inp : PensionInput) (env : Env) :
    Except PensionError AnalysisReport :=
  if periodsWellFormed inp.periods then
    match inp.lastContribEnd with
    | none => .error .missingLastContribution
    | some lastEnd =>
      let ledger := resolverLedger inp.periods
      let ws := weeksAccountant inp.periods ledger
      let refDay := inp.refDay.getD env.now
      let cons := conservationEngine inp.worker.regime ws.netWeeks lastEnd refDay
      let sal := salaryWindow inp.periods inp.targetWindowDays
      .ok
        { worker := inp.worker
          weeks := ws
          officialTotalWeeks := inp.officialTotalWeeks
          precision := precisionClass ws.netWeeks inp.officialTotalWeeks
          ledger := ledger
          conservation := cons
          salary := sal
          observations := validatorObservations ws inp.officialTotalWeeks ledger }
  else .error .malformedPeriods

end Pension

namespace Frontend

/-! ## Caller-side display logic, translated from
`src/frontend/app/(dashboard)/results/page.tsx` -/

/-- `charsStartWith needle hay` — `needle` is an initial run of `hay`. -/
def charsStartWith : List Char → List Char → Bool
  | [], _ => true
  | _ :: _, [] => false
  | n :: ns, h :: hs => n == h && charsStartWith ns hs

/-- `charsContain needle hay` — `needle` occurs contiguously in `hay`
(the semantics of JavaScript `String.prototype.includes`). -/
def charsContain (needle : List Char) : List Char → Bool
  | [] => charsStartWith needle []
  | c :: cs => charsStartWith needle (c :: cs) || charsContain needle cs

/-- `obs.toLowerCase().includes('empalme')` from
`results/page.tsx` lines 251 and 330. -/
def mentionsEmpalme (s : String) : Bool :=
  charsContain "empalme".data (s.data.map Char.toLower)

/-- The observation filter applied before rendering in both the
discounted-weeks block and the salary-window block of
`results/page.tsx`:
`observaciones.filter(obs => !obs.toLowerCase().includes('empalme'))`. -/
def renderObservaciones (obs : List String) : List String :=
  obs.filter fun o => !mentionsEmpalme o

/-- The regex test `/^\d{2}\/\d{2}\/\d{4}$/.test(fechaISO)` of
`formatearFecha` (`results/page.tsx` line 21). -/
def matchesDDMMYYYY (cs : List Char) : Bool :=
  match cs with
  | [d1, d2, c1, m1, m2, c2, y1, y2, y3, y4] =>
      d1.isDigit && d2.isDigit && c1 == '/' && m1.isDigit && m2.isDigit &&
        c2 == '/' && y1.isDigit && y2.isDigit && y3.isDigit && y4.isDigit
  | _ => false

/-- The date part used by `formatearFecha`: for a full ISO string the
part before `'T'` (`fechaISO.split('T')[0]`), otherwise the whole
string. -/
def jsDatePart (cs : List Char) : List Char :=
  cs.takeWhile fun c => c != 'T'

/-- Split a character list on a separator, JavaScript
`String.prototype.split` style (empty parts preserved). -/
def splitOnChar (sep : Char) : List Char → List (List Char)
  | [] => [[]]
  | c :: rest =>
    let r := splitOnChar sep rest
    if c == sep then [] :: r
    else
      match r with
      | [] => [[c]]
      | h :: t => (c :: h) :: t

/-- Decimal parse of a nonempty all-digit group, the behaviour of
JavaScript `Number` on the digit groups of an ISO date.  (On groups
containing a non-digit, `Number` yields `NaN` and `formatearFecha` falls
through to returning its input; this model returns `none` there, which
the translation maps to the same fallback.) -/
def parseDigitsAux : List Char → Nat → Option Nat
  | [], acc => some acc
  | c :: cs, acc =>
      if c.isDigit then parseDigitsAux cs (10 * acc + (c.toNat - 48)) else none

/-- See `parseDigitsAux`; the empty group is rejected. -/
def parseDigits : List Char → Option Nat
  | [] => none
  | c :: cs => parseDigitsAux (c :: cs) 0

/-- ECMAScript `MakeFullYear`: `new Date(y, m, d)` maps year arguments
0–99 to 1900+y (`results/page.tsx` line 47 constructs
`new Date(year, month - 1, day)`). -/
def jsFullYear (y : Nat) : Nat :=
  if y ≤ 99 then 1900 + y else y

/-- `String(n).padStart(2, '0')` for the day and month fields. -/
def padTwo (n : Nat) : String :=
  if n < 10 then "0" ++ Nat.repr n else Nat.repr n

/-- Day number of the ECMAScript epoch 1970-01-01. -/
def epochRataDie : Nat := Pension.rataDie 1970 1 1

/-- ECMAScript `TimeClip` at day granularity: a time value is valid only
within ±8.64×10¹⁵ ms of the epoch, i.e. at most 10⁸ days
(`275760-09-13` is exactly 10⁸ days after the epoch).  Dates beyond the
bound make `fecha.getTime()` `NaN`.  The lower bound is unreachable for
positive years; at the single boundary day the local-time offset of the
`new Date(year, month-1, day)` construction could shift the cutoff by
one day — the theorems below stay away from that day. -/
def jsTimeInRange (y m d : Nat) : Bool :=
  Pension.rataDie y m d ≤ epochRataDie + 100000000

/-- The model of `isNaN(fecha.getTime())` being false for
`fecha = new Date(y, m - 1, d)`: the components form a well-formed
civil date and its time value survives `TimeClip`. -/
def jsDateValid (y m d : Nat) : Bool :=
  Pension.validDate y m d && jsTimeInRange y m d

/-- Translation of `formatearFecha` (`results/page.tsx` lines 16–61):
`null`/`undefined` input — and the equally falsy empty string — yields
`'N/A'`; an already-`DD/MM/YYYY` string is returned untouched; an ISO
string (optionally with a `'T'` time part) is split into components,
fed through the JavaScript `Date` component constructor (modelled by
`jsFullYear` plus `jsDateValid`, the `isNaN(fecha.getTime())` test of
validity and `TimeClip` range; the constructor's overflow normalization
of invalid in-range component triples is not modelled — every theorem
below stays on in-range components, where the constructor returns the
components unchanged), and re-rendered as `DD/MM/YYYY`; anything else
(including the non-ISO `new Date(string)` fallback, not modelled)
returns the input unchanged, as does an invalid parse. -/
def formatearFecha : Option String → String
  | none => "N/A"
  | some s =>
    if s = "" then "N/A"
    else
      let cs := s.data
      if matchesDDMMYYYY cs then s
      else if cs.contains 'T' || cs.contains '-' then
        match splitOnChar '-' (jsDatePart cs) with
        | ys :: ms :: ds :: _ =>
          match parseDigits ys, parseDigits ms, parseDigits ds with
          | some y, some m, some d =>
            let fy := jsFullYear y
            if jsDateValid fy m d then
              padTwo d ++ "/" ++ padTwo m ++ "/" ++ Nat.repr fy
            else s
          | _, _, _ => s
        | _ => s
      else s

end Frontend

namespace Pension

/-! ## Helper lemmas -/

theorem mem_of_mem_allPairs {α : Type _} {l : List α} {a b : α}
    (h : (a, b) ∈ allPairs l) : a ∈ l ∧ b ∈ l := by
  induction l with
  | nil => simp [allPairs] at h
  | cons x xs ih =>
    simp only [allPairs, List.mem_append, List.mem_map] at h
    rcases h with ⟨y, hy, he⟩ | h
    · rw [Prod.mk.injEq] at he
      obtain ⟨h1, h2⟩ := he
      subst h1; subst h2
      exact ⟨List.mem_cons_self .., List.mem_cons_of_mem _ hy⟩
    · exact ⟨List.mem_cons_of_mem _ (ih h).1, List.mem_cons_of_mem _ (ih h).2⟩

theorem snd_mem_of_mem_enum {α : Type _} {l : List α} {x : Nat × α}
    (h : x ∈ l.enum) : x.2 ∈ l := by
  have hmap : x.2 ∈ l.enum.map Prod.snd := List.mem_map_of_mem _ h
  rwa [List.enum_map_snd] at hmap

theorem overlapDays_eq_zero {p q : EmploymentPeriod}
    (h : interDays p q = 0) : overlapDays p q = 0 := by
  unfold overlapDays
  split <;> simp [h]

theorem resolverLedger_eq_nil {periods : List EmploymentPeriod}
    (h : ∀ p ∈ periods, ∀ q ∈ periods,
      p.employerId ≠ q.employerId → interDays p q = 0) :
    resolverLedger periods = [] := by
  unfold resolverLedger
  rw [List.filterMap_eq_nil_iff]
  intro ab hab
  have hmem := mem_of_mem_allPairs hab
  have h1 : ab.1.2 ∈ periods := snd_mem_of_mem_enum hmem.1
  have h2 : ab.2.2 ∈ periods := snd_mem_of_mem_enum hmem.2
  by_cases hemp : ab.1.2.employerId = ab.2.2.employerId
  · simp [hemp]
  · have hz : overlapDays ab.1.2 ab.2.2 = 0 :=
      overlapDays_eq_zero (h _ h1 _ h2 hemp)
    simp [hz]

theorem resolverLedger_pair (p q : EmploymentPeriod) :
    resolverLedger [p, q] =
      if p.employerId ≠ q.employerId ∧ 0 < overlapDays p q then
        [pairEntry (0, p) (1, q)] else [] := by
  have henum : ([p, q]).enum = [(0, p), (1, q)] := rfl
  have hpairs : allPairs [((0 : Nat), p), (1, q)] = [((0, p), (1, q))] := rfl
  unfold resolverLedger
  rw [henum, hpairs]
  by_cases hc : p.employerId ≠ q.employerId ∧ 0 < overlapDays p q
  · rw [if_pos hc]
    simp [List.filterMap, hc]
  · rw [if_neg hc]
    simp [List.filterMap, hc]

/-! ## Claim theorems -/

/-- C1.  For every input sequence of employment periods in which no two
periods from different employers have intersecting date ranges, the
Overlap Resolver produces an empty discount ledger and the computed
total weeks (the net weeks used downstream) equals the sum of the
per-period reported week counts. -/
theorem C1_no_cross_overlap_empty_ledger (periods : List EmploymentPeriod)
    (h : ∀ p ∈ periods, ∀ q ∈ periods,
      p.employerId ≠ q.employerId → interDays p q = 0) :
    resolverLedger periods = [] ∧
    (weeksAccountant periods (resolverLedger periods)).netWeeks =
      (periods.map EmploymentPeriod.reportedWeeks).sum ∧
    (weeksAccountant periods (resolverLedger periods)).computedTotalWeeks =
      (periods.map EmploymentPeriod.reportedWeeks).sum := by
  have hnil := resolverLedger_eq_nil h
  refine ⟨hnil, ?_, rfl⟩
  simp [weeksAccountant, hnil]

/-- C1 witness: two disjoint periods of different employers. -/
theorem C1_witness :
    resolverLedger [⟨1, 10, 20, 2, 100⟩, ⟨2, 30, 40, 3, 120⟩] = [] ∧
    (weeksAccountant [⟨1, 10, 20, 2, 100⟩, ⟨2, 30, 40, 3, 120⟩]
        (resolverLedger [⟨1, 10, 20, 2, 100⟩, ⟨2, 30, 40, 3, 120⟩])).netWeeks =
      ([⟨1, 10, 20, 2, 100⟩, ⟨2, 30, 40, 3, 120⟩].map
        EmploymentPeriod.reportedWeeks).sum ∧
    (weeksAccountant [⟨1, 10, 20, 2, 100⟩, ⟨2, 30, 40, 3, 120⟩]
        (resolverLedger [⟨1, 10, 20, 2, 100⟩, ⟨2, 30, 40, 3, 120⟩])).computedTotalWeeks =
      ([⟨1, 10, 20, 2, 100⟩, ⟨2, 30, 40, 3, 120⟩].map
        EmploymentPeriod.reportedWeeks).sum :=
  C1_no_cross_overlap_empty_ledger _ (by decide)

/-- C2 counterexample: for two fully overlapping 70-day periods from
different employers with salaries 400 and 250 and reported weeks 10 and
20, the ledger attributes the full 10-week discount to the lower-salary
period, but the stored discount percentage is the two-decimal
round-half-even rounding 0.33 of 10/30, not the exact ratio 10/30 the
claim states. -/
theorem C2_counterexample :
    ¬ ((weeksAccountant [⟨1, 10, 79, 10, 400⟩, ⟨2, 10, 79, 20, 250⟩]
          (resolverLedger
            [⟨1, 10, 79, 10, 400⟩, ⟨2, 10, 79, 20, 250⟩])).discountPercentage =
        (((resolverLedger [⟨1, 10, 79, 10, 400⟩, ⟨2, 10, 79, 20, 250⟩]).map
            DiscountLedgerEntry.discountedWeeks).sum : ℚ) / ((10 : ℚ) + 20)) := by
  have hled : resolverLedger [⟨1, 10, 79, 10, 400⟩, ⟨2, 10, 79, 20, 250⟩] =
      [⟨1, 2, 70, 10, 0, "empalme entre patrones"⟩] := by decide
  rw [hled]
  intro hEq
  unfold weeksAccountant at hEq
  simp only [List.map_cons, List.map_nil, List.sum_cons, List.sum_nil,
    Nat.add_zero] at hEq
  rw [if_neg (by norm_num)] at hEq
  norm_num at hEq
  have hfl : ⌊(1 / 3 : ℚ) * 100⌋ = 33 := by
    rw [Int.floor_eq_iff]
    norm_num
  simp only [roundTwoPlaces, roundHalfEven, hfl] at hEq
  norm_num at hEq

/-- C2 (amended).  For two well-formed periods (`end ≥ start`) from
different employers with identical start and end dates, the Overlap
Resolver discounts the full span of exactly one period, attributed to
the period with the strictly lower daily integrated salary; the
higher-salary period receives no ledger entry, and the discount
percentage is the two-decimal round-half-even rounding of discounted
weeks divided by the combined pre-discount week total. -/
theorem C2_full_overlap_discounts_lower_salary (p q : EmploymentPeriod)
    (hemp : p.employerId ≠ q.employerId)
    (hs : p.startDay = q.startDay) (he : p.endDay = q.endDay)
    (hse : p.startDay ≤ p.endDay)
    (hsal : q.dailySalary < p.dailySalary) :
    resolverLedger [p, q] =
      [{ periodId := 1
         employerId := q.employerId
         discountedDays := periodDays p
         discountedWeeks := periodDays p / 7
         carryDays := periodDays p % 7
         reason := "empalme entre patrones" }] ∧
    (weeksAccountant [p, q] (resolverLedger [p, q])).discountPercentage =
      roundTwoPlaces (((periodDays p / 7 : Nat) : ℚ) /
        ((p.reportedWeeks + q.reportedWeeks : Nat) : ℚ)) := by
  have hinter : interDays p q = periodDays p := by
    unfold interDays
    rw [← hs, ← he, min_self, max_self]
    rfl
  have hb : sharesOnlyBoundary p q = false := by
    unfold sharesOnlyBoundary
    rw [hs]
    simp
  have hov : overlapDays p q = periodDays p := by
    simp [overlapDays, hb, hinter]
  have hpos : 0 < overlapDays p q := by
    rw [hov]; unfold periodDays; omega
  have habs : absorber (0, p) (1, q) = ((1 : Nat), q) := by
    unfold absorber
    rw [if_neg (not_lt.mpr hsal.le), if_pos hsal]
  have hledger : resolverLedger [p, q] =
      [{ periodId := 1
         employerId := q.employerId
         discountedDays := periodDays p
         discountedWeeks := periodDays p / 7
         carryDays := periodDays p % 7
         reason := "empalme entre patrones" }] := by
    rw [resolverLedger_pair, if_pos ⟨hemp, hpos⟩]
    unfold pairEntry
    rw [habs, hov]
  refine ⟨hledger, ?_⟩
  unfold weeksAccountant
  rw [hledger]
  simp only [List.map_cons, List.map_nil, List.sum_cons, List.sum_nil,
    Nat.add_zero]
  by_cases h0 : p.reportedWeeks + q.reportedWeeks = 0
  · rw [if_pos (by simpa using h0), h0]
    norm_num [roundTwoPlaces, roundHalfEven]
  · rw [if_neg (by simpa using h0)]

/-- C2 witness: the spec's own scenario — two 10-week fully overlapping
periods, salaries 400 and 250, reported weeks 10 and 10. -/
theorem C2_witness :
    resolverLedger [⟨1, 10, 79, 10, 400⟩, ⟨2, 10, 79, 10, 250⟩] =
      [{ periodId := 1
         employerId := 2
         discountedDays := periodDays ⟨1, 10, 79, 10, 400⟩
         discountedWeeks := periodDays ⟨1, 10, 79, 10, 400⟩ / 7
         carryDays := periodDays ⟨1, 10, 79, 10, 400⟩ % 7
         reason := "empalme entre patrones" }] ∧
    (weeksAccountant [⟨1, 10, 79, 10, 400⟩, ⟨2, 10, 79, 10, 250⟩]
        (resolverLedger
          [⟨1, 10, 79, 10, 400⟩, ⟨2, 10, 79, 10, 250⟩])).discountPercentage =
      roundTwoPlaces (((periodDays ⟨1, 10, 79, 10, 400⟩ / 7 : Nat) : ℚ) /
        (((10 : Nat) + 10 : Nat) : ℚ)) :=
  C2_full_overlap_discounts_lower_salary ⟨1, 10, 79, 10, 400⟩
    ⟨2, 10, 79, 10, 250⟩ (by decide) rfl rfl (by decide) (by decide)

/-- C3.  For two different-employer periods, every ledger entry converts
the resolved overlap of `d` days to `⌊d / 7⌋` weeks with the remainder
`d % 7` kept as a day-level carry, and a pair sharing only an end/start
boundary (zero-day overlap) produces no discount entry. -/
theorem C3_week_conversion_and_boundary (p q : EmploymentPeriod)
    (_hemp : p.employerId ≠ q.employerId) :
    (∀ e ∈ resolverLedger [p, q],
      e.discountedWeeks = overlapDays p q / 7 ∧
      e.carryDays = overlapDays p q % 7 ∧
      e.discountedDays = overlapDays p q) ∧
    (p.startDay < q.startDay → p.endDay = q.startDay → p.endDay ≤ q.endDay →
      resolverLedger [p, q] = []) := by
  constructor
  · intro e he
    rw [resolverLedger_pair] at he
    by_cases hc : p.employerId ≠ q.employerId ∧ 0 < overlapDays p q
    · rw [if_pos hc] at he
      simp only [List.mem_singleton] at he
      subst he
      exact ⟨rfl, rfl, rfl⟩
    · rw [if_neg hc] at he
      simp at he
  · intro h1 h2 h3
    have hmin : min p.endDay q.endDay = p.endDay := min_eq_left h3
    have hmax : max p.startDay q.startDay = q.startDay := max_eq_right h1.le
    have hinter : interDays p q = 1 := by
      unfold interDays
      rw [hmin, hmax, h2]
      omega
    have hb : sharesOnlyBoundary p q = true := by
      unfold sharesOnlyBoundary
      simp only [Bool.and_eq_true, Bool.or_eq_true, beq_iff_eq,
        decide_eq_true_eq]
      exact ⟨hinter, Or.inl ⟨h2, h1⟩⟩
    have hov : overlapDays p q = 0 := by simp [overlapDays, hb]
    rw [resolverLedger_pair, if_neg]
    rintro ⟨-, hpos⟩
    rw [hov] at hpos
    exact absurd hpos (lt_irrefl 0)

/-- C3 witness: a back-to-back pair sharing only the boundary day 20
yields no discount entry. -/
theorem C3_witness :
    resolverLedger [⟨1, 10, 20, 2, 100⟩, ⟨2, 20, 30, 2, 100⟩] = [] :=
  (C3_week_conversion_and_boundary ⟨1, 10, 20, 2, 100⟩ ⟨2, 20, 30, 2, 100⟩
    (by decide)).2 (by decide) rfl (by decide)

theorem insertByEndDesc_perm (p : EmploymentPeriod)
    (l : List EmploymentPeriod) : (insertByEndDesc p l).Perm (p :: l) := by
  induction l with
  | nil => exact List.Perm.refl _
  | cons q qs ih =>
    simp only [insertByEndDesc]
    split
    · exact List.Perm.refl _
    · exact (List.Perm.cons q ih).trans (List.Perm.swap p q qs)

theorem sortByEndDesc_perm (l : List EmploymentPeriod) :
    (sortByEndDesc l).Perm l := by
  induction l with
  | nil => exact List.Perm.refl _
  | cons p ps ih =>
    exact (insertByEndDesc_perm p (sortByEndDesc ps)).trans (List.Perm.cons p ih)

theorem windowWalk_fst_le_target :
    ∀ (l : List EmploymentPeriod) (r : Nat), (windowWalk l r).1 ≤ r := by
  intro l
  induction l with
  | nil => intro r; cases r <;> simp [windowWalk]
  | cons p ps ih =>
    intro r
    cases r with
    | zero => simp [windowWalk]
    | succ n =>
      simp only [windowWalk]
      split
      · simp
      · rename_i hgt
        have h := ih (n + 1 - periodDays p)
        dsimp only
        omega

theorem windowWalk_fst_le_total :
    ∀ (l : List EmploymentPeriod) (r : Nat),
      (windowWalk l r).1 ≤ (l.map periodDays).sum := by
  intro l
  induction l with
  | nil => intro r; cases r <;> simp [windowWalk]
  | cons p ps ih =>
    intro r
    cases r with
    | zero => simp [windowWalk]
    | succ n =>
      simp only [windowWalk, List.map_cons, List.sum_cons]
      split
      · rename_i hle
        dsimp only
        omega
      · rename_i hgt
        have h := ih (n + 1 - periodDays p)
        dsimp only
        omega

theorem windowWalk_fst_of_insufficient :
    ∀ (l : List EmploymentPeriod) (r : Nat),
      (l.map periodDays).sum < r →
        (windowWalk l r).1 = (l.map periodDays).sum := by
  intro l
  induction l with
  | nil =>
    intro r h
    cases r with
    | zero => simp at h
    | succ n => simp [windowWalk]
  | cons p ps ih =>
    intro r h
    cases r with
    | zero => simp at h
    | succ n =>
      simp only [List.map_cons, List.sum_cons] at h
      simp only [windowWalk, List.map_cons, List.sum_cons]
      split
      · rename_i hle
        exfalso
        omega
      · rename_i hgt
        have h2 := ih (n + 1 - periodDays p) (by omega)
        dsimp only
        omega

/-- C4.  For every input period sequence and every target day-count, the
Salary Window Averager's achieved day-count is at most the target and at
most the sum of all available resolved period days; whenever the total
available days are strictly less than the target, the completeness flag
is false and the achieved day-count equals the total available days. -/
theorem C4_window_achieved_caps (periods : List EmploymentPeriod) (target : Nat) :
    (salaryWindow periods target).achievedDays ≤ target ∧
    (salaryWindow periods target).achievedDays ≤ (periods.map periodDays).sum ∧
    ((periods.map periodDays).sum < target →
      (salaryWindow periods target).complete = false ∧
      (salaryWindow periods target).achievedDays = (periods.map periodDays).sum) := by
  have hperm : (sortByEndDesc periods).Perm periods :=
    sortByEndDesc_perm periods
  have hsum : ((sortByEndDesc periods).map periodDays).sum =
      (periods.map periodDays).sum :=
    (hperm.map periodDays).sum_eq
  have hach : (salaryWindow periods target).achievedDays =
      (windowWalk (sortByEndDesc periods) target).1 := rfl
  have hcomp : (salaryWindow periods target).complete =
      decide (target ≤ (windowWalk (sortByEndDesc periods) target).1) := rfl
  refine ⟨?_, ?_, ?_⟩
  · rw [hach]
    exact windowWalk_fst_le_target _ _
  · rw [hach, ← hsum]
    exact windowWalk_fst_le_total _ _
  · intro hlt
    have h2 := windowWalk_fst_of_insufficient (sortByEndDesc periods) target
      (by rw [hsum]; exact hlt)
    constructor
    · rw [hcomp, h2, hsum]
      exact decide_eq_false (by omega)
    · rw [hach, h2, hsum]

/-- C4 witness: a single 10-day period against a 20-day target. -/
theorem C4_witness :
    (salaryWindow [⟨1, 1, 10, 2, 100⟩] 20).achievedDays ≤ 20 ∧
    (salaryWindow [⟨1, 1, 10, 2, 100⟩] 20).achievedDays ≤
      ([(⟨1, 1, 10, 2, 100⟩ : EmploymentPeriod)].map periodDays).sum ∧
    (salaryWindow [⟨1, 1, 10, 2, 100⟩] 20).complete = false ∧
    (salaryWindow [⟨1, 1, 10, 2, 100⟩] 20).achievedDays =
      ([(⟨1, 1, 10, 2, 100⟩ : EmploymentPeriod)].map periodDays).sum := by
  have h := C4_window_achieved_caps [⟨1, 1, 10, 2, 100⟩] 20
  exact ⟨h.1, h.2.1, (h.2.2 (by decide)).1, (h.2.2 (by decide)).2⟩

/-- C5.  A worker with the single employment period 01/01/2020 to
31/12/2020, daily salary 300.00, and a 365-day target window gets daily
average 300.00, monthly average 9120.00 = 300 × 30.4, completeness true
and achieved day-count 365. -/
theorem C5_single_period_scenario :
    (salaryWindow [⟨7, rataDie 2020 1 1, rataDie 2020 12 31, 52, 300⟩]
        365).achievedDays = 365 ∧
    (salaryWindow [⟨7, rataDie 2020 1 1, rataDie 2020 12 31, 52, 300⟩]
        365).dailyAverage = 300 ∧
    (salaryWindow [⟨7, rataDie 2020 1 1, rataDie 2020 12 31, 52, 300⟩]
        365).monthlyAverage = 9120 ∧
    (salaryWindow [⟨7, rataDie 2020 1 1, rataDie 2020 12 31, 52, 300⟩]
        365).complete = true := by
  have hwalk : windowWalk (sortByEndDesc
        [⟨7, rataDie 2020 1 1, rataDie 2020 12 31, 52, 300⟩]) 365 =
      (365, [⟨7, rataDie 2020 1 2, rataDie 2020 12 31, 365, 300⟩]) := by
    decide
  simp only [salaryWindow, hwalk]
  norm_num [monthFactor]

/-- C6.  Conservation validity is antitone in the reference date: if the
Conservation Engine reports the worker vigente at reference date `D`,
it reports vigente at every earlier reference date, all other inputs
held fixed. -/
theorem C6_vigente_antitone_in_refDate (regime : Regime)
    (netWeeks lastEnd D E : Nat)
    (h : (conservationEngine regime netWeeks lastEnd D).vigente = true)
    (hlt : E < D) :
    (conservationEngine regime netWeeks lastEnd E).vigente = true := by
  simp only [conservationEngine, conservationVigente, decide_eq_true_eq] at h ⊢
  omega

/-- C6 witness: vigente at day 1175 implies vigente at day 1000 for 100
net weeks last contributed at day 1000. -/
theorem C6_witness :
    (conservationEngine .ley73 100 1000 1000).vigente = true :=
  C6_vigente_antitone_in_refDate .ley73 100 1000 1175 1000 (by decide)
    (by decide)

/-- C7.  The pipeline is deterministic: with an explicitly passed
reference date, the Pension Processor's output on a fixed input snapshot
is the same under any ambient clock value and randomness seed — in
particular two runs on identical input produce identical reports. -/
theorem C7_deterministic_given_refDate (inp : PensionInput) (d : Nat)
    (h : inp.refDay = some d) (env1 env2 : Env) :
    pensionProcessor inp env1 = pensionProcessor inp env2 := by
  simp only [pensionProcessor, h, Option.getD_some]

/-- C7 witness: the same input with an explicit reference date under two
different clocks and seeds. -/
theorem C7_witness :
    pensionProcessor
      ⟨⟨"n", "c", "x", none, .ley73⟩, [⟨1, 10, 20, 2, 100⟩], 2, some 20,
        some 5000, 1750⟩ ⟨111, 1⟩ =
    pensionProcessor
      ⟨⟨"n", "c", "x", none, .ley73⟩, [⟨1, 10, 20, 2, 100⟩], 2, some 20,
        some 5000, 1750⟩ ⟨999, 2⟩ :=
  C7_deterministic_given_refDate _ 5000 rfl _ _

/-- C8.  When the last-contribution end date is missing while
conservation must be evaluated, the run fails with the structural
data-quality error and returns no partial report, under every ambient
clock — the engine never substitutes the current date for the missing
last-contribution date. -/
theorem C8_missing_last_contribution_fatal (inp : PensionInput) (env : Env)
    (hwf : periodsWellFormed inp.periods = true)
    (h : inp.lastContribEnd = none) :
    pensionProcessor inp env = .error .missingLastContribution := by
  unfold pensionProcessor
  rw [if_pos hwf, h]

/-- C8 witness: a well-formed input without a last-contribution date
errors out under an arbitrary clock. -/
theorem C8_witness :
    pensionProcessor
      ⟨⟨"n", "c", "x", none, .ley73⟩, [⟨1, 10, 20, 2, 100⟩], 2, none,
        some 5000, 1750⟩ ⟨123, 0⟩ = .error .missingLastContribution :=
  C8_missing_last_contribution_fatal _ _ (by decide) rfl

end Pension

namespace Frontend

/-! ## Correctness of the character-level substring test -/

theorem charsStartWith_iff (n : List Char) :
    ∀ h : List Char, charsStartWith n h = true ↔ ∃ t, h = n ++ t := by
  induction n with
  | nil =>
    intro h
    simp [charsStartWith]
  | cons c cs ih =>
    intro h
    cases h with
    | nil =>
      simp [charsStartWith]
    | cons d ds =>
      simp only [charsStartWith, Bool.and_eq_true, beq_iff_eq, ih,
        List.cons_append, List.cons.injEq]
      constructor
      · rintro ⟨rfl, t, rfl⟩
        exact ⟨t, rfl, rfl⟩
      · rintro ⟨t, rfl, rfl⟩
        exact ⟨rfl, t, rfl⟩

theorem charsContain_iff (n : List Char) :
    ∀ h : List Char, charsContain n h = true ↔ ∃ l r, h = l ++ n ++ r := by
  intro h
  induction h with
  | nil =>
    simp only [charsContain, charsStartWith_iff]
    constructor
    · rintro ⟨t, ht⟩
      exact ⟨[], t, by simpa using ht⟩
    · rintro ⟨l, r, hl⟩
      obtain ⟨h12, hr⟩ := List.append_eq_nil.mp hl.symm
      obtain ⟨hl0, hn0⟩ := List.append_eq_nil.mp h12
      exact ⟨[], by simp [hn0]⟩
  | cons c cs ih =>
    simp only [charsContain, Bool.or_eq_true, charsStartWith_iff, ih]
    constructor
    · rintro (⟨t, ht⟩ | ⟨l, r, rfl⟩)
      · exact ⟨[], t, by simpa using ht⟩
      · exact ⟨c :: l, r, by simp⟩
    · rintro ⟨l, r, hl⟩
      cases l with
      | nil =>
        exact Or.inl ⟨r, by simpa using hl⟩
      | cons x xs =>
        simp only [List.cons_append, List.cons.injEq] at hl
        exact Or.inr ⟨xs, r, hl.2⟩

end Frontend

namespace Frontend

/-- A string mentions "empalme" case-insensitively: its lowercased
character sequence contains the characters of `"empalme"` contiguously. -/
def MentionsEmpalmeProp (s : String) : Prop :=
  ∃ l r, s.data.map Char.toLower = l ++ "empalme".data ++ r

theorem mentionsEmpalme_iff (s : String) :
    mentionsEmpalme s = true ↔ MentionsEmpalmeProp s :=
  charsContain_iff "empalme".data (s.data.map Char.toLower)

/-- C9.  The caller-side display logic renders exactly those observation
strings that do not contain the substring "empalme" case-insensitively:
the rendered list is a sublist of the input (relative order preserved),
no rendered observation mentions "empalme", and every observation not
mentioning "empalme" is rendered. -/
theorem C9_observation_filter (obs : List String) :
    (renderObservaciones obs).Sublist obs ∧
    (∀ o ∈ renderObservaciones obs, ¬ MentionsEmpalmeProp o) ∧
    (∀ o ∈ obs, ¬ MentionsEmpalmeProp o → o ∈ renderObservaciones obs) := by
  refine ⟨List.filter_sublist obs, ?_, ?_⟩
  · intro o ho hprop
    have hmem := List.mem_filter.mp ho
    have htrue : mentionsEmpalme o = true := (mentionsEmpalme_iff o).mpr hprop
    rw [htrue] at hmem
    simp at hmem
  · intro o ho hprop
    have hfalse : mentionsEmpalme o = false := by
      cases hme : mentionsEmpalme o with
      | false => rfl
      | true => exact absurd ((mentionsEmpalme_iff o).mp hme) hprop
    exact List.mem_filter.mpr ⟨ho, by rw [hfalse]; rfl⟩

/-- C9 witness: an "empalme" note is suppressed and an ordinary
observation is kept. -/
theorem C9_witness :
    "Total correcto" ∈
      renderObservaciones
        ["Se detecto empalme entre patrones", "Total correcto"] :=
  (C9_observation_filter
      ["Se detecto empalme entre patrones", "Total correcto"]).2.2
    "Total correcto" (by simp)
    (fun hprop =>
      absurd ((mentionsEmpalme_iff "Total correcto").mpr hprop) (by decide))

end Frontend

namespace Frontend

/-! ## Behaviour of the ISO branch of `formatearFecha` -/

theorem splitOnChar_no_sep (sep : Char) :
    ∀ cs : List Char, sep ∉ cs → splitOnChar sep cs = [cs] := by
  intro cs
  induction cs with
  | nil => intro h; rfl
  | cons c cs ih =>
    intro h
    have hne : (c == sep) = false := by
      simp only [beq_eq_false_iff_ne, ne_eq]
      intro hcs
      exact h (hcs ▸ List.mem_cons_self ..)
    have hrest : sep ∉ cs := fun hmem => h (List.mem_cons_of_mem _ hmem)
    simp [splitOnChar, hne, ih hrest]

theorem splitOnChar_append (sep : Char) :
    ∀ (a rest : List Char), sep ∉ a →
      splitOnChar sep (a ++ sep :: rest) = a :: splitOnChar sep rest := by
  intro a
  induction a with
  | nil =>
    intro rest h
    simp [splitOnChar]
  | cons c cs ih =>
    intro rest h
    have hne : (c == sep) = false := by
      simp only [beq_eq_false_iff_ne, ne_eq]
      intro hcs
      exact h (hcs ▸ List.mem_cons_self ..)
    have hrest : sep ∉ cs := fun hmem => h (List.mem_cons_of_mem _ hmem)
    simp [splitOnChar, hne, ih rest hrest]

theorem parseDigitsAux_all_digits :
    ∀ (cs : List Char) (acc n : Nat), parseDigitsAux cs acc = some n →
      ∀ c ∈ cs, c.isDigit = true := by
  intro cs
  induction cs with
  | nil =>
    intro acc n h c hc
    simp at hc
  | cons e es ih =>
    intro acc n h c hc
    simp only [parseDigitsAux] at h
    by_cases he : e.isDigit = true
    · rw [if_pos he] at h
      rcases List.mem_cons.mp hc with rfl | hc2
      · exact he
      · exact ih _ _ h c hc2
    · rw [if_neg he] at h
      exact absurd h (by simp)

theorem parseDigits_all_digits (cs : List Char) (n : Nat)
    (h : parseDigits cs = some n) : ∀ c ∈ cs, c.isDigit = true := by
  cases cs with
  | nil => simp [parseDigits] at h
  | cons c cs => exact parseDigitsAux_all_digits _ _ _ h

theorem matchesDDMMYYYY_chars (cs : List Char)
    (h : matchesDDMMYYYY cs = true) :
    ∀ c ∈ cs, c.isDigit = true ∨ c = '/' := by
  unfold matchesDDMMYYYY at h
  split at h
  · rename_i d1 d2 c1 m1 m2 c2 y1 y2 y3 y4
    simp only [Bool.and_eq_true, beq_iff_eq] at h
    obtain ⟨⟨⟨⟨⟨⟨⟨⟨⟨h1, h2⟩, h3⟩, h4⟩, h5⟩, h6⟩, h7⟩, h8⟩, h9⟩, h10⟩ := h
    intro c hc
    simp only [List.mem_cons, List.not_mem_nil, or_false] at hc
    rcases hc with rfl | rfl | rfl | rfl | rfl | rfl | rfl | rfl | rfl | rfl <;>
      first
        | exact Or.inl (by assumption)
        | exact Or.inr (by assumption)
  · exact absurd h (by simp)

end Frontend

namespace Frontend

/-- C10 counterexample: the valid ISO calendar date `0099-01-05` (year
99) is rendered as `05/01/1999` — the JavaScript `Date` constructor maps
year components 0–99 to 1900+year — so the output's year component is
not the one written in the input. -/
theorem C10_counterexample :
    formatearFecha (some "0099-01-05") = "05/01/1999" ∧
    formatearFecha (some "0099-01-05") ≠ "05/01/0099" := by
  constructor
  · rfl
  · decide

/-- C10 (amended).  For every string whose date part (before any `'T'`)
decomposes into three dash-separated digit groups encoding a valid
calendar date `y-m-d` with year component at least 100 and within the
ECMAScript `Date` range (at most 10⁸ days past the 1970 epoch),
`formatearFecha` returns `DD/MM/YYYY` with day, month and year
components identical to those written in the input (no timezone-induced
day shift), and for null/undefined input it returns `'N/A'`.  (For
years 0–99 the JavaScript `Date` component constructor substitutes
1900+year, see the counterexample; beyond the `TimeClip` range the date
is invalid and the input is returned unchanged.) -/
theorem C10_formatearFecha_iso (s : String) (ys ms ds : List Char)
    (y m d : Nat)
    (hsplit : jsDatePart s.data = ys ++ ('-' :: (ms ++ ('-' :: ds))))
    (hy : parseDigits ys = some y) (hm : parseDigits ms = some m)
    (hd : parseDigits ds = some d)
    (hy100 : 100 ≤ y) (hval : Pension.validDate y m d = true)
    (hclip : jsTimeInRange y m d = true) :
    formatearFecha (some s) =
      padTwo d ++ "/" ++ padTwo m ++ "/" ++ Nat.repr y ∧
    formatearFecha none = "N/A" := by
  refine ⟨?_, rfl⟩
  have hysd := parseDigits_all_digits ys y hy
  have hmsd := parseDigits_all_digits ms m hm
  have hdsd := parseDigits_all_digits ds d hd
  have hdashys : '-' ∉ ys := fun hmem => by simpa using hysd '-' hmem
  have hdashms : '-' ∉ ms := fun hmem => by simpa using hmsd '-' hmem
  have hdashds : '-' ∉ ds := fun hmem => by simpa using hdsd '-' hmem
  have hdash_mem : '-' ∈ s.data := by
    have h1 : '-' ∈ jsDatePart s.data := by
      rw [hsplit]
      simp
    exact (List.takeWhile_sublist _).mem h1
  have hnempty : ¬ s = "" := by
    intro hse
    subst hse
    exact (by decide : ¬ '-' ∈ ("" : String).data) hdash_mem
  have hmatch : matchesDDMMYYYY s.data = false := by
    cases hm2 : matchesDDMMYYYY s.data with
    | false => rfl
    | true =>
      have hcc := matchesDDMMYYYY_chars _ hm2 '-' hdash_mem
      simp at hcc
  have hcontains : s.data.contains '-' = true := by simpa using hdash_mem
  have hcond : (s.data.contains 'T' || s.data.contains '-') = true := by
    rw [hcontains, Bool.or_true]
  have hfy : jsFullYear y = y := by
    unfold jsFullYear
    rw [if_neg (by omega)]
  have hdv : jsDateValid y m d = true := by
    unfold jsDateValid
    rw [hval, hclip, Bool.and_self]
  simp only [formatearFecha, eq_false hnempty, if_false, hmatch,
    Bool.false_eq_true, hcond, if_true, hsplit, List.cons_append]
  rw [splitOnChar_append '-' ys (ms ++ '-' :: ds) hdashys,
    splitOnChar_append '-' ms ds hdashms, splitOnChar_no_sep '-' ds hdashds]
  simp only [hy, hm, hd, hfy, hdv, if_true]

end Frontend

namespace Frontend

/-- C10 witness: the ISO date string `2020-01-05` renders as
`05/01/2020`, and null input renders as `N/A`. -/
theorem C10_witness :
    formatearFecha (some "2020-01-05") =
      padTwo 5 ++ "/" ++ padTwo 1 ++ "/" ++ Nat.repr 2020 ∧
    formatearFecha none = "N/A" :=
  C10_formatearFecha_iso "2020-01-05" "2020".data "01".data "05".data
    2020 1 5 (by decide) (by decide) (by decide) (by decide) (by decide)
    (by decide) (by decide)

end Frontend
